import Mathlib

/-!
Verification of the `permessage-deflate` WebSocket extension core
(`src/extensions/deflate/mod.rs`): negotiation (offer acceptance and
response verification) and the compress/decompress glue around the
underlying raw-deflate codec.

Bytes are modelled as `Nat` (values 0..255); no byte arithmetic occurs,
bytes are only moved and compared.  The external flate2 codec (an
external collaborator, specified only at its interface boundary) is
modelled as an abstract `Codec` record of stream-state transition
functions; all glue logic is translated from the source.
-/

namespace Tungstenite

abbrev Byte := Nat

def PERMESSAGE_DEFLATE_NAME : String := "permessage-deflate"

def PARAM_CLIENT_MAX_WINDOW_BITS : String := "client_max_window_bits"

def PARAM_CLIENT_NO_CONTEXT_TAKEOVER : String := "client_no_context_takeover"

def PARAM_SERVER_MAX_WINDOW_BITS : String := "server_max_window_bits"

def PARAM_SERVER_NO_CONTEXT_TAKEOVER : String := "server_no_context_takeover"

/-- The 4-byte deflate empty-block marker `00 00 FF FF` (`TRAILER` in the source). -/
def TRAILER : List Byte := [0x00, 0x00, 0xff, 0xff]

/-- Errors from `permessage-deflate` extension negotiation (`NegotiationError`). -/
inductive NegotiationError where
  | UnknownParameter (name : String)
  | DuplicateParameter (name : String)
  | UnexpectedClientMaxWindowBits
  | ServerMaxWindowBitsNotSupported
  | InvalidClientMaxWindowBitsValue (value : String)
  | InvalidServerMaxWindowBitsValue (value : String)
  | MissingServerMaxWindowBitsValue
deriving DecidableEq, Repr

/-- Errors from the `permessage-deflate` extension (`DeflateError`).  The
`std::io::Error` payloads of `Compress`/`Decompress` are opaque and dropped. -/
inductive DeflateError where
  | Compress
  | Decompress
  | Negotiation (e : NegotiationError)
deriving DecidableEq, Repr

/-- Configuration for the per-message deflate extension (`DeflateConfig`).
`compression` is the flate2 `Compression` level. -/
structure DeflateConfig where
  compression : Nat
  request_no_context_takeover : Bool
  accept_no_context_takeover : Bool
deriving DecidableEq, Repr

/-- Rust `DeflateConfig::default()`: `Compression::default()` is level 6, both flags false. -/
def DeflateConfig.default : DeflateConfig :=
  { compression := 6, request_no_context_takeover := false, accept_no_context_takeover := false }

/-- An extension header record (`WebSocketExtension` from
`handshake/headers/websocket_extensions.rs`): a name plus an ordered list of
(parameter-name, optional value) pairs; `params()` iterates the list in order. -/
structure WebSocketExtension where
  name : String
  params : List (String × Option String)
deriving DecidableEq, Repr

/-- Rust `is_valid_max_window_bits`: `matches!(bits, "8" | ... | "15")`. -/
def is_valid_max_window_bits (bits : String) : Bool :=
  bits == "8" || bits == "9" || bits == "10" || bits == "11" || bits == "12" ||
    bits == "13" || bits == "14" || bits == "15"

/-- Number of parameters in a list carrying the given key (helper for stating
duplicate-parameter properties). -/
def countKey (k : String) : List (String × Option String) → Nat
  | [] => 0
  | (a, _) :: rest => (if a = k then 1 else 0) + countKey k rest

/-- The `for (key, val) in offer.params()` loop of `DeflateConfig::accept_offer`,
with the loop-carried state (`params`, the local `config`, and the three `seen_*`
flags) made explicit.  As in the source, the local `config` is written but never
read after the loop. -/
def acceptOfferLoop : List (String × Option String) → List (String × Option String) →
    DeflateConfig → Bool → Bool → Bool → Option (List (String × Option String))
  | [], params, _config, _sS, _sC, _sW => some params
  | (key, val) :: rest, params, config, sS, sC, sW =>
    if key = PARAM_SERVER_NO_CONTEXT_TAKEOVER then
      -- Invalid offer with multiple params with same name is declined.
      if sS then none
      else acceptOfferLoop rest (params ++ [(PARAM_SERVER_NO_CONTEXT_TAKEOVER, none)])
        { config with request_no_context_takeover := true } true sC sW
    else if key = PARAM_CLIENT_NO_CONTEXT_TAKEOVER then
      if sC then none
      else acceptOfferLoop rest (params ++ [(PARAM_CLIENT_NO_CONTEXT_TAKEOVER, none)])
        { config with accept_no_context_takeover := true } sS true sW
    else if key = PARAM_SERVER_MAX_WINDOW_BITS then
      -- `server_max_window_bits` requires a value in range [8, 15]; and the
      -- server declines an offer with this parameter as it is unsupported.
      match val with
      | some bits => if !is_valid_max_window_bits bits then none else none
      | none => none
    else if key = PARAM_CLIENT_MAX_WINDOW_BITS then
      match val with
      | some bits =>
        if !is_valid_max_window_bits bits then none
        else if sW then none
        else acceptOfferLoop rest params config sS sC true
      | none =>
        if sW then none
        else acceptOfferLoop rest params config sS sC true
    else
      -- Offer with unknown parameter MUST be declined.
      none

/-- Rust `DeflateConfig::accept_offer`.  As in the source, `self` is never read. -/
def DeflateConfig.accept_offer (_self : DeflateConfig) (offer : WebSocketExtension) :
    Option WebSocketExtension :=
  if offer.name = PERMESSAGE_DEFLATE_NAME then
    (acceptOfferLoop offer.params [] DeflateConfig.default false false false).map
      (fun params => { name := PERMESSAGE_DEFLATE_NAME, params := params })
  else
    none

/-- The `for (key, val) in params` loop of `DeflateContext::new`, with the
loop-carried `config` and the two `seen_*` flags made explicit. -/
def newLoop : List (String × Option String) → DeflateConfig → Bool → Bool →
    Except DeflateError DeflateConfig
  | [], config, _sS, _sC => .ok config
  | (key, val) :: rest, config, sS, sC =>
    if key = PARAM_SERVER_NO_CONTEXT_TAKEOVER then
      if sS then .error (.Negotiation (.DuplicateParameter key))
      else newLoop rest { config with request_no_context_takeover := true } true sC
    else if key = PARAM_CLIENT_NO_CONTEXT_TAKEOVER then
      if sC then .error (.Negotiation (.DuplicateParameter key))
      else newLoop rest { config with accept_no_context_takeover := true } sS true
    else if key = PARAM_SERVER_MAX_WINDOW_BITS then
      match val with
      | some bits =>
        if !is_valid_max_window_bits bits then
          .error (.Negotiation (.InvalidServerMaxWindowBitsValue bits))
        else
          .error (.Negotiation .ServerMaxWindowBitsNotSupported)
      | none => .error (.Negotiation .MissingServerMaxWindowBitsValue)
    else if key = PARAM_CLIENT_MAX_WINDOW_BITS then
      match val with
      | some bits =>
        if !is_valid_max_window_bits bits then
          .error (.Negotiation (.InvalidClientMaxWindowBitsValue bits))
        else
          .error (.Negotiation .UnexpectedClientMaxWindowBits)
      | none => .error (.Negotiation .UnexpectedClientMaxWindowBits)
    else
      .error (.Negotiation (.UnknownParameter key))

/-- Resolved-config part of `DeflateContext::new`: the starting config carries
over only `accept_no_context_takeover` from the caller (`..Default::default()`),
then the parameter loop runs. -/
def DeflateContext.newConfig (config : DeflateConfig) (params : List (String × Option String)) :
    Except DeflateError DeflateConfig :=
  newLoop params
    { DeflateConfig.default with accept_no_context_takeover := config.accept_no_context_takeover }
    false false

/-- flate2 `Status`. -/
inductive Status where
  | Ok
  | BufError
  | StreamEnd
deriving DecidableEq, Repr

/-- flate2 `FlushCompress` (only the variants the source uses). -/
inductive FlushCompress where
  | None
  | Sync
deriving DecidableEq, Repr

/-- flate2 `FlushDecompress` (only the variant the source uses). -/
inductive FlushDecompress where
  | None
deriving DecidableEq, Repr

/-- Abstract model of the external flate2 raw-deflate codec, the external
collaborator specified only at its interface boundary.  A step function takes
the stream state and the not-yet-consumed input and returns the new state, how
many input bytes were consumed, the bytes produced, and a status; `Except Unit`
models the fallible native call.  `cNew`/`dNew` model `Compress::new(level,
zlib_header)` / `Decompress::new(zlib_header)`; `cReset`/`dReset` model
`Compress::reset()` / `Decompress::reset(zlib_header)`. -/
structure Codec where
  CSt : Type
  DSt : Type
  cNew : Nat → Bool → CSt
  dNew : Bool → DSt
  compressVec : CSt → List Byte → FlushCompress → Except Unit (CSt × Nat × List Byte × Status)
  decompressVec : DSt → List Byte → FlushDecompress → Except Unit (DSt × Nat × List Byte × Status)
  cReset : CSt → CSt
  dReset : DSt → Bool → DSt

/-- A compressor stream with its running `total_in` counter (flate2 maintains
`total_in` internally; the glue code reads it to compute input offsets). -/
structure Compressor (C : Codec) where
  st : C.CSt
  total_in : Nat

/-- A decompressor stream with its running `total_in` counter. -/
structure Decompressor (C : Codec) where
  st : C.DSt
  total_in : Nat

/-- Rust `Compress::compress_vec`: steps the stream and advances `total_in` by the
consumed count (clamped to the available input, a flate2 invariant). -/
def Compressor.compressVec {C : Codec} (c : Compressor C) (input : List Byte)
    (flush : FlushCompress) : Except Unit (Compressor C × List Byte × Status) :=
  match C.compressVec c.st input flush with
  | .error e => .error e
  | .ok (st2, consumed, out, status) =>
    .ok ({ st := st2, total_in := c.total_in + min consumed input.length }, out, status)

/-- Rust `Decompress::decompress_vec`. -/
def Decompressor.decompressVec {C : Codec} (d : Decompressor C) (input : List Byte)
    (flush : FlushDecompress) : Except Unit (Decompressor C × List Byte × Status) :=
  match C.decompressVec d.st input flush with
  | .error e => .error e
  | .ok (st2, consumed, out, status) =>
    .ok ({ st := st2, total_in := d.total_in + min consumed input.length }, out, status)

/-- Context for the resolved per-message deflate extension (`DeflateContext`),
parameterized by the codec model. -/
structure DeflateContext (C : Codec) where
  config : DeflateConfig
  compressor : Compressor C
  decompressor : Decompressor C

/-- Rust `From<DeflateConfig> for DeflateContext`. -/
def DeflateContext.fromConfig (C : Codec) (val : DeflateConfig) : DeflateContext C :=
  { config := val,
    compressor := { st := C.cNew val.compression false, total_in := 0 },
    decompressor := { st := C.dNew false, total_in := 0 } }

/-- Rust `DeflateContext::new`: resolve the config from the response parameters,
then build the context via the `From` impl. -/
def DeflateContext.new (C : Codec) (config : DeflateConfig)
    (params : List (String × Option String)) : Except DeflateError (DeflateContext C) :=
  (DeflateContext.newConfig config params).map (DeflateContext.fromConfig C)

/-- First loop of `DeflateContext::compress`: feed the payload with
`FlushCompress::None` while `total_in - before_in < data.len()`.  `Ok` and
`BufError` continue (`output.reserve(4096)` only grows capacity, which a list
does not track); `StreamEnd` breaks.  Unproductive codec behavior is cut off by
`fuel` (`none` = the Rust loop would still be running). -/
def compressFeedLoop (C : Codec) (fuel : Nat) (data : List Byte) (before_in : Nat)
    (c : Compressor C) (output : List Byte) :
    Option (Except DeflateError (Compressor C × List Byte)) :=
  match fuel with
  | 0 => none
  | fuel + 1 =>
    if c.total_in - before_in < data.length then
      let offset := c.total_in - before_in
      match c.compressVec (data.drop offset) FlushCompress.None with
      | .error _ => some (.error .Compress)
      | .ok (c2, out, status) =>
        match status with
        | .Ok => compressFeedLoop C fuel data before_in c2 (output ++ out)
        | .BufError => compressFeedLoop C fuel data before_in c2 (output ++ out)
        | .StreamEnd => some (.ok (c2, output ++ out))
    else
      some (.ok (c, output))

/-- Second loop of `DeflateContext::compress`: `while !output.ends_with(TRAILER)`
force a sync flush on empty input; `Ok`/`BufError` continue, `StreamEnd` breaks. -/
def compressFlushLoop (C : Codec) (fuel : Nat) (c : Compressor C) (output : List Byte) :
    Option (Except DeflateError (Compressor C × List Byte)) :=
  match fuel with
  | 0 => none
  | fuel + 1 =>
    if TRAILER.isSuffixOf output then
      some (.ok (c, output))
    else
      match c.compressVec [] FlushCompress.Sync with
      | .error _ => some (.error .Compress)
      | .ok (c2, out, status) =>
        match status with
        | .Ok => compressFlushLoop C fuel c2 (output ++ out)
        | .BufError => compressFlushLoop C fuel c2 (output ++ out)
        | .StreamEnd => some (.ok (c2, output ++ out))

/-- The two loops of `DeflateContext::compress` in sequence, before the
trailer truncation and the conditional reset. -/
def compressRawRun (C : Codec) (fuel : Nat) (data : List Byte) (c : Compressor C) :
    Option (Except DeflateError (Compressor C × List Byte)) :=
  match compressFeedLoop C fuel data c.total_in c [] with
  | none => none
  | some (.error e) => some (.error e)
  | some (.ok (c1, out1)) => compressFlushLoop C fuel c1 out1

/-- Rust `DeflateContext::compress`: feed, sync-flush until the output ends with
`TRAILER`, `truncate(len - 4)` (Nat subtraction; the loop guarantees the
trailer suffix unless the codec reported `StreamEnd`), then reset the
compressor iff `accept_no_context_takeover`. -/
def DeflateContext.compress (C : Codec) (fuel : Nat) (ctx : DeflateContext C)
    (data : List Byte) : Option (Except DeflateError (DeflateContext C × List Byte)) :=
  match compressRawRun C fuel data ctx.compressor with
  | none => none
  | some (.error e) => some (.error e)
  | some (.ok (c2, out)) =>
    let output := out.take (out.length - 4)
    let c3 := if ctx.config.accept_no_context_takeover
      then { c2 with st := C.cReset c2.st } else c2
    some (.ok ({ ctx with compressor := c3 }, output))

/-- The `loop` of `DeflateContext::decompress`: feed with
`FlushDecompress::None`; `Ok` continues (`output.reserve` only grows capacity),
`BufError` and `StreamEnd` break. -/
def decompressFeedLoop (C : Codec) (fuel : Nat) (d : Decompressor C) (before_in : Nat)
    (data : List Byte) (output : List Byte) :
    Option (Except DeflateError (Decompressor C × List Byte)) :=
  match fuel with
  | 0 => none
  | fuel + 1 =>
    let offset := d.total_in - before_in
    match d.decompressVec (data.drop offset) FlushDecompress.None with
    | .error _ => some (.error .Decompress)
    | .ok (d2, out, status) =>
      match status with
      | .Ok => decompressFeedLoop C fuel d2 before_in data (output ++ out)
      | .BufError => some (.ok (d2, output ++ out))
      | .StreamEnd => some (.ok (d2, output ++ out))

/-- Rust `DeflateContext::decompress`: append `TRAILER` iff `is_final`, feed, then
reset the decompressor iff `is_final && request_no_context_takeover`. -/
def DeflateContext.decompress (C : Codec) (fuel : Nat) (ctx : DeflateContext C)
    (data : List Byte) (is_final : Bool) :
    Option (Except DeflateError (DeflateContext C × List Byte)) :=
  let data2 := if is_final then data ++ TRAILER else data
  match decompressFeedLoop C fuel ctx.decompressor ctx.decompressor.total_in data2 [] with
  | none => none
  | some (.error e) => some (.error e)
  | some (.ok (d1, out)) =>
    let d2 := if is_final && ctx.config.request_no_context_takeover
      then { d1 with st := C.dReset d1.st false } else d1
    some (.ok ({ ctx with decompressor := d2 }, out))

/-- Byte-pair encoding used by the `toyCodec` witness model: each pending byte
`b` becomes `[1, b]`, so the encoded body never ends with `TRAILER`. -/
def toyEncode (st : List Byte) : List Byte :=
  st.flatMap (fun b => [1, b])

/-- Decoder for `toyEncode` output: literals until the `TRAILER` marker
(`StreamEnd`), bare end of input or garbage gives no progress (`BufError`).
Returns (consumed, output, status). -/
def toyDecode : List Byte → Nat × List Byte × Status
  | 0 :: 0 :: 0xff :: 0xff :: _ => (4, [], .StreamEnd)
  | 1 :: b :: rest =>
    let r := toyDecode rest
    (r.1 + 2, b :: r.2.1, r.2.2)
  | _ => (0, [], .BufError)

/-- A concrete codec satisfying the spec's interface contract for the external
collaborator: feeding buffers input; a sync flush emits the pair-encoded
pending bytes followed by `TRAILER`; the decompressor decodes literals and
recognizes `TRAILER` as end of block. -/
def toyCodec : Codec where
  CSt := List Byte
  DSt := Unit
  cNew := fun _ _ => []
  dNew := fun _ => ()
  compressVec := fun st input flush =>
    match flush with
    | .None => .ok (st ++ input, input.length, [], .Ok)
    | .Sync => .ok ([], 0, toyEncode st ++ TRAILER, .Ok)
  decompressVec := fun st input _flush =>
    let r := toyDecode input
    .ok (st, r.1, r.2.1, r.2.2)
  cReset := fun _ => []
  dReset := fun st _ => st

/-- A codec that flushes its pending bytes verbatim (as zlib stored blocks do
for incompressible data) followed by `TRAILER`: used to exhibit a compressed
body that itself ends with the trailer bytes. -/
def storedCodec : Codec where
  CSt := List Byte
  DSt := Unit
  cNew := fun _ _ => []
  dNew := fun _ => ()
  compressVec := fun st input flush =>
    match flush with
    | .None => .ok (st ++ input, input.length, [], .Ok)
    | .Sync => .ok ([], 0, st ++ TRAILER, .Ok)
  decompressVec := fun st _ _ => .ok (st, 0, [], .BufError)
  cReset := fun _ => []
  dReset := fun st _ => st

/-! Section: Disequalities of the recognized parameter names -/

@[simp] theorem ne_snct_cnct :
    PARAM_SERVER_NO_CONTEXT_TAKEOVER ≠ PARAM_CLIENT_NO_CONTEXT_TAKEOVER := by decide

@[simp] theorem ne_snct_smax :
    PARAM_SERVER_NO_CONTEXT_TAKEOVER ≠ PARAM_SERVER_MAX_WINDOW_BITS := by decide

@[simp] theorem ne_snct_cmax :
    PARAM_SERVER_NO_CONTEXT_TAKEOVER ≠ PARAM_CLIENT_MAX_WINDOW_BITS := by decide

@[simp] theorem ne_cnct_snct :
    PARAM_CLIENT_NO_CONTEXT_TAKEOVER ≠ PARAM_SERVER_NO_CONTEXT_TAKEOVER := by decide

@[simp] theorem ne_cnct_smax :
    PARAM_CLIENT_NO_CONTEXT_TAKEOVER ≠ PARAM_SERVER_MAX_WINDOW_BITS := by decide

@[simp] theorem ne_cnct_cmax :
    PARAM_CLIENT_NO_CONTEXT_TAKEOVER ≠ PARAM_CLIENT_MAX_WINDOW_BITS := by decide

@[simp] theorem ne_smax_snct :
    PARAM_SERVER_MAX_WINDOW_BITS ≠ PARAM_SERVER_NO_CONTEXT_TAKEOVER := by decide

@[simp] theorem ne_smax_cnct :
    PARAM_SERVER_MAX_WINDOW_BITS ≠ PARAM_CLIENT_NO_CONTEXT_TAKEOVER := by decide

@[simp] theorem ne_smax_cmax :
    PARAM_SERVER_MAX_WINDOW_BITS ≠ PARAM_CLIENT_MAX_WINDOW_BITS := by decide

@[simp] theorem ne_cmax_snct :
    PARAM_CLIENT_MAX_WINDOW_BITS ≠ PARAM_SERVER_NO_CONTEXT_TAKEOVER := by decide

@[simp] theorem ne_cmax_cnct :
    PARAM_CLIENT_MAX_WINDOW_BITS ≠ PARAM_CLIENT_NO_CONTEXT_TAKEOVER := by decide

@[simp] theorem ne_cmax_smax :
    PARAM_CLIENT_MAX_WINDOW_BITS ≠ PARAM_SERVER_MAX_WINDOW_BITS := by decide

/-! Section: Lemmas about the response-verification loop -/

/-- If the response contains a `server_max_window_bits` parameter (any value or
none), the verification loop returns an error from any loop state. -/
theorem nl_smax_fails (ps : List (String × Option String)) :
    ∀ (cfg : DeflateConfig) (sS sC : Bool) (v : Option String),
      (PARAM_SERVER_MAX_WINDOW_BITS, v) ∈ ps →
      ∃ e, newLoop ps cfg sS sC = .error e := by
  induction ps with
  | nil => intro cfg sS sC v h; simp at h
  | cons head rest ih =>
    intro cfg sS sC v h
    obtain ⟨key, val⟩ := head
    rcases List.mem_cons.mp h with hh | ht
    · injection hh with hk hv
      subst hk; subst hv
      cases v with
      | none => simp [newLoop]
      | some bits => cases hb : is_valid_max_window_bits bits <;> simp [newLoop, hb]
    · by_cases h1 : key = PARAM_SERVER_NO_CONTEXT_TAKEOVER
      · subst h1
        cases sS with
        | true => simp [newLoop]
        | false =>
          obtain ⟨e, he⟩ := ih { cfg with request_no_context_takeover := true } true sC v ht
          exact ⟨e, by simpa [newLoop] using he⟩
      · by_cases h2 : key = PARAM_CLIENT_NO_CONTEXT_TAKEOVER
        · subst h2
          cases sC with
          | true => simp [newLoop]
          | false =>
            obtain ⟨e, he⟩ := ih { cfg with accept_no_context_takeover := true } sS true v ht
            exact ⟨e, by simpa [newLoop] using he⟩
        · by_cases h3 : key = PARAM_SERVER_MAX_WINDOW_BITS
          · subst h3
            cases val with
            | none => simp [newLoop]
            | some bits => cases hb : is_valid_max_window_bits bits <;> simp [newLoop, hb]
          · by_cases h4 : key = PARAM_CLIENT_MAX_WINDOW_BITS
            · subst h4
              cases val with
              | none => simp [newLoop]
              | some bits => cases hb : is_valid_max_window_bits bits <;> simp [newLoop, hb]
            · simp [newLoop, h1, h2, h3, h4]

/-- A duplicated `server_no_context_takeover` (two occurrences remaining, or
one remaining with its seen-flag already set) makes the verification loop fail. -/
theorem nl_dup_snct (ps : List (String × Option String)) :
    ∀ (cfg : DeflateConfig) (sS sC : Bool),
      (2 ≤ countKey PARAM_SERVER_NO_CONTEXT_TAKEOVER ps ∨
        (sS = true ∧ 1 ≤ countKey PARAM_SERVER_NO_CONTEXT_TAKEOVER ps)) →
      ∃ e, newLoop ps cfg sS sC = .error e := by
  induction ps with
  | nil => intro cfg sS sC h; simp [countKey] at h
  | cons head rest ih =>
    intro cfg sS sC h
    obtain ⟨key, val⟩ := head
    by_cases h1 : key = PARAM_SERVER_NO_CONTEXT_TAKEOVER
    · subst h1
      cases sS with
      | true => simp [newLoop]
      | false =>
        have hc : 1 ≤ countKey PARAM_SERVER_NO_CONTEXT_TAKEOVER rest := by
          rcases h with h | ⟨hf, _⟩
          · simp [countKey] at h; omega
          · exact absurd hf (by simp)
        obtain ⟨e, he⟩ := ih { cfg with request_no_context_takeover := true } true sC
          (Or.inr ⟨rfl, hc⟩)
        exact ⟨e, by simpa [newLoop] using he⟩
    · have hcount : countKey PARAM_SERVER_NO_CONTEXT_TAKEOVER ((key, val) :: rest) =
          countKey PARAM_SERVER_NO_CONTEXT_TAKEOVER rest := by
        simp [countKey, h1]
      rw [hcount] at h
      by_cases h2 : key = PARAM_CLIENT_NO_CONTEXT_TAKEOVER
      · subst h2
        cases sC with
        | true => simp [newLoop]
        | false =>
          obtain ⟨e, he⟩ := ih { cfg with accept_no_context_takeover := true } sS true h
          exact ⟨e, by simpa [newLoop] using he⟩
      · by_cases h3 : key = PARAM_SERVER_MAX_WINDOW_BITS
        · subst h3
          cases val with
          | none => simp [newLoop]
          | some bits => cases hb : is_valid_max_window_bits bits <;> simp [newLoop, hb]
        · by_cases h4 : key = PARAM_CLIENT_MAX_WINDOW_BITS
          · subst h4
            cases val with
            | none => simp [newLoop]
            | some bits => cases hb : is_valid_max_window_bits bits <;> simp [newLoop, hb]
          · simp [newLoop, h1, h2, h3, h4]

/-- A duplicated `client_no_context_takeover` makes the verification loop fail. -/
theorem nl_dup_cnct (ps : List (String × Option String)) :
    ∀ (cfg : DeflateConfig) (sS sC : Bool),
      (2 ≤ countKey PARAM_CLIENT_NO_CONTEXT_TAKEOVER ps ∨
        (sC = true ∧ 1 ≤ countKey PARAM_CLIENT_NO_CONTEXT_TAKEOVER ps)) →
      ∃ e, newLoop ps cfg sS sC = .error e := by
  induction ps with
  | nil => intro cfg sS sC h; simp [countKey] at h
  | cons head rest ih =>
    intro cfg sS sC h
    obtain ⟨key, val⟩ := head
    by_cases h2 : key = PARAM_CLIENT_NO_CONTEXT_TAKEOVER
    · subst h2
      cases sC with
      | true => simp [newLoop]
      | false =>
        have hc : 1 ≤ countKey PARAM_CLIENT_NO_CONTEXT_TAKEOVER rest := by
          rcases h with h | ⟨hf, _⟩
          · simp [countKey] at h; omega
          · exact absurd hf (by simp)
        obtain ⟨e, he⟩ := ih { cfg with accept_no_context_takeover := true } sS true
          (Or.inr ⟨rfl, hc⟩)
        exact ⟨e, by simpa [newLoop] using he⟩
    · have hcount : countKey PARAM_CLIENT_NO_CONTEXT_TAKEOVER ((key, val) :: rest) =
          countKey PARAM_CLIENT_NO_CONTEXT_TAKEOVER rest := by
        simp [countKey, h2]
      rw [hcount] at h
      by_cases h1 : key = PARAM_SERVER_NO_CONTEXT_TAKEOVER
      · subst h1
        cases sS with
        | true => simp [newLoop]
        | false =>
          obtain ⟨e, he⟩ := ih { cfg with request_no_context_takeover := true } true sC h
          exact ⟨e, by simpa [newLoop] using he⟩
      · by_cases h3 : key = PARAM_SERVER_MAX_WINDOW_BITS
        · subst h3
          cases val with
          | none => simp [newLoop]
          | some bits => cases hb : is_valid_max_window_bits bits <;> simp [newLoop, hb]
        · by_cases h4 : key = PARAM_CLIENT_MAX_WINDOW_BITS
          · subst h4
            cases val with
            | none => simp [newLoop]
            | some bits => cases hb : is_valid_max_window_bits bits <;> simp [newLoop, hb]
          · simp [newLoop, h1, h2, h3, h4]

/-- When the parameters are restricted to the two no-context-takeover tokens
and one of them is duplicated, the verification loop fails specifically with
`DuplicateParameter`. -/
theorem nl_dup_restricted (ps : List (String × Option String)) :
    ∀ (cfg : DeflateConfig) (sS sC : Bool),
      (∀ p ∈ ps, p.1 = PARAM_SERVER_NO_CONTEXT_TAKEOVER ∨
        p.1 = PARAM_CLIENT_NO_CONTEXT_TAKEOVER) →
      ((2 ≤ countKey PARAM_SERVER_NO_CONTEXT_TAKEOVER ps ∨
          (sS = true ∧ 1 ≤ countKey PARAM_SERVER_NO_CONTEXT_TAKEOVER ps)) ∨
        (2 ≤ countKey PARAM_CLIENT_NO_CONTEXT_TAKEOVER ps ∨
          (sC = true ∧ 1 ≤ countKey PARAM_CLIENT_NO_CONTEXT_TAKEOVER ps))) →
      ∃ name, newLoop ps cfg sS sC = .error (.Negotiation (.DuplicateParameter name)) := by
  induction ps with
  | nil => intro cfg sS sC _ h; simp [countKey] at h
  | cons head rest ih =>
    intro cfg sS sC hall h
    obtain ⟨key, val⟩ := head
    have hkey := hall (key, val) (List.mem_cons_self _ _)
    have hrest : ∀ p ∈ rest, p.1 = PARAM_SERVER_NO_CONTEXT_TAKEOVER ∨
        p.1 = PARAM_CLIENT_NO_CONTEXT_TAKEOVER :=
      fun p hp => hall p (List.mem_cons_of_mem _ hp)
    rcases hkey with h1 | h2
    · simp only at h1
      subst h1
      cases sS with
      | true => exact ⟨PARAM_SERVER_NO_CONTEXT_TAKEOVER, by simp [newLoop]⟩
      | false =>
        have hS : countKey PARAM_SERVER_NO_CONTEXT_TAKEOVER
            ((PARAM_SERVER_NO_CONTEXT_TAKEOVER, val) :: rest) =
            1 + countKey PARAM_SERVER_NO_CONTEXT_TAKEOVER rest := by simp [countKey]
        have hC : countKey PARAM_CLIENT_NO_CONTEXT_TAKEOVER
            ((PARAM_SERVER_NO_CONTEXT_TAKEOVER, val) :: rest) =
            countKey PARAM_CLIENT_NO_CONTEXT_TAKEOVER rest := by simp [countKey]
        rw [hS, hC] at h
        have h' : (2 ≤ countKey PARAM_SERVER_NO_CONTEXT_TAKEOVER rest ∨
            (true = true ∧ 1 ≤ countKey PARAM_SERVER_NO_CONTEXT_TAKEOVER rest)) ∨
            (2 ≤ countKey PARAM_CLIENT_NO_CONTEXT_TAKEOVER rest ∨
              (sC = true ∧ 1 ≤ countKey PARAM_CLIENT_NO_CONTEXT_TAKEOVER rest)) := by
          rcases h with (h | ⟨hf, _⟩) | h
          · exact Or.inl (Or.inr ⟨rfl, by omega⟩)
          · exact absurd hf (by simp)
          · exact Or.inr h
        obtain ⟨name, he⟩ := ih { cfg with request_no_context_takeover := true } true sC hrest h'
        exact ⟨name, by simpa [newLoop] using he⟩
    · simp only at h2
      subst h2
      cases sC with
      | true => exact ⟨PARAM_CLIENT_NO_CONTEXT_TAKEOVER, by simp [newLoop]⟩
      | false =>
        have hS : countKey PARAM_SERVER_NO_CONTEXT_TAKEOVER
            ((PARAM_CLIENT_NO_CONTEXT_TAKEOVER, val) :: rest) =
            countKey PARAM_SERVER_NO_CONTEXT_TAKEOVER rest := by simp [countKey]
        have hC : countKey PARAM_CLIENT_NO_CONTEXT_TAKEOVER
            ((PARAM_CLIENT_NO_CONTEXT_TAKEOVER, val) :: rest) =
            1 + countKey PARAM_CLIENT_NO_CONTEXT_TAKEOVER rest := by simp [countKey]
        rw [hS, hC] at h
        have h' : (2 ≤ countKey PARAM_SERVER_NO_CONTEXT_TAKEOVER rest ∨
            (sS = true ∧ 1 ≤ countKey PARAM_SERVER_NO_CONTEXT_TAKEOVER rest)) ∨
            (2 ≤ countKey PARAM_CLIENT_NO_CONTEXT_TAKEOVER rest ∨
              (true = true ∧ 1 ≤ countKey PARAM_CLIENT_NO_CONTEXT_TAKEOVER rest)) := by
          rcases h with h | (h | ⟨hf, _⟩)
          · exact Or.inl h
          · exact Or.inr (Or.inr ⟨rfl, by omega⟩)
          · exact absurd hf (by simp)
        obtain ⟨name, he⟩ := ih { cfg with accept_no_context_takeover := true } sS true hrest h'
        exact ⟨name, by simpa [newLoop] using he⟩

/-- The verification loop never changes the compression level. -/
theorem nl_ok_compression (ps : List (String × Option String)) :
    ∀ (cfg : DeflateConfig) (sS sC : Bool) (cfg2 : DeflateConfig),
      newLoop ps cfg sS sC = .ok cfg2 → cfg2.compression = cfg.compression := by
  induction ps with
  | nil => intro cfg sS sC cfg2 h; simp [newLoop] at h; rw [← h]
  | cons head rest ih =>
    intro cfg sS sC cfg2 h
    obtain ⟨key, val⟩ := head
    by_cases h1 : key = PARAM_SERVER_NO_CONTEXT_TAKEOVER
    · subst h1
      cases sS with
      | true => simp [newLoop] at h
      | false =>
        simp only [newLoop, if_pos rfl, if_neg] at h
        exact ih { cfg with request_no_context_takeover := true } true sC cfg2 (by simpa using h)
    · by_cases h2 : key = PARAM_CLIENT_NO_CONTEXT_TAKEOVER
      · subst h2
        cases sC with
        | true => simp [newLoop] at h
        | false =>
          exact ih { cfg with accept_no_context_takeover := true } sS true cfg2
            (by simpa [newLoop] using h)
      · by_cases h3 : key = PARAM_SERVER_MAX_WINDOW_BITS
        · subst h3
          cases val with
          | none => simp [newLoop] at h
          | some bits => cases hb : is_valid_max_window_bits bits <;> simp [newLoop, hb] at h
        · by_cases h4 : key = PARAM_CLIENT_MAX_WINDOW_BITS
          · subst h4
            cases val with
            | none => simp [newLoop] at h
            | some bits => cases hb : is_valid_max_window_bits bits <;> simp [newLoop, hb] at h
          · simp [newLoop, h1, h2, h3, h4] at h

/-- On success, the resolved `request_no_context_takeover` flag is set iff it
was already set or a `server_no_context_takeover` parameter occurs. -/
theorem nl_ok_request (ps : List (String × Option String)) :
    ∀ (cfg : DeflateConfig) (sS sC : Bool) (cfg2 : DeflateConfig),
      newLoop ps cfg sS sC = .ok cfg2 →
      (cfg2.request_no_context_takeover = true ↔
        (cfg.request_no_context_takeover = true ∨
          ∃ v, (PARAM_SERVER_NO_CONTEXT_TAKEOVER, v) ∈ ps)) := by
  induction ps with
  | nil =>
    intro cfg sS sC cfg2 h
    simp [newLoop] at h
    rw [← h]
    simp
  | cons head rest ih =>
    intro cfg sS sC cfg2 h
    obtain ⟨key, val⟩ := head
    by_cases h1 : key = PARAM_SERVER_NO_CONTEXT_TAKEOVER
    · subst h1
      cases sS with
      | true => simp [newLoop] at h
      | false =>
        have hih := ih { cfg with request_no_context_takeover := true } true sC cfg2
          (by simpa [newLoop] using h)
        constructor
        · intro _
          exact Or.inr ⟨val, List.mem_cons_self _ _⟩
        · intro _
          rw [hih]
          exact Or.inl rfl
    · by_cases h2 : key = PARAM_CLIENT_NO_CONTEXT_TAKEOVER
      · subst h2
        cases sC with
        | true => simp [newLoop] at h
        | false =>
          have hih := ih { cfg with accept_no_context_takeover := true } sS true cfg2
            (by simpa [newLoop] using h)
          rw [hih]
          constructor
          · rintro (hr | ⟨v, hv⟩)
            · exact Or.inl hr
            · exact Or.inr ⟨v, List.mem_cons_of_mem _ hv⟩
          · rintro (hr | ⟨v, hv⟩)
            · exact Or.inl hr
            · rcases List.mem_cons.mp hv with heq | hm
              · exact absurd (congrArg Prod.fst heq) (by simp)
              · exact Or.inr ⟨v, hm⟩
      · by_cases h3 : key = PARAM_SERVER_MAX_WINDOW_BITS
        · subst h3
          cases val with
          | none => simp [newLoop] at h
          | some bits => cases hb : is_valid_max_window_bits bits <;> simp [newLoop, hb] at h
        · by_cases h4 : key = PARAM_CLIENT_MAX_WINDOW_BITS
          · subst h4
            cases val with
            | none => simp [newLoop] at h
            | some bits => cases hb : is_valid_max_window_bits bits <;> simp [newLoop, hb] at h
          · simp [newLoop, h1, h2, h3, h4] at h

/-- Transfers a loop error to `DeflateContext::new`. -/
theorem new_error_of_loop {C : Codec} {cfg : DeflateConfig} {ps : List (String × Option String)}
    {e : DeflateError}
    (he : newLoop ps
      { DeflateConfig.default with accept_no_context_takeover := cfg.accept_no_context_takeover }
      false false = .error e) :
    DeflateContext.new C cfg ps = .error e := by
  simp [DeflateContext.new, DeflateContext.newConfig, he, Except.map]

/-! Section: Claim theorems: negotiation, verification side -/

/-- C6: `is_valid_max_window_bits` accepts a string iff it is exactly one of the
eight decimal strings "8".."15"; in particular it rejects "", "0", "08", "+8",
"-8", and "16". -/
theorem valid_max_window_bits_characterization :
    (∀ s : String, is_valid_max_window_bits s = true ↔
      (s = "8" ∨ s = "9" ∨ s = "10" ∨ s = "11" ∨ s = "12" ∨ s = "13" ∨ s = "14" ∨ s = "15"))
    ∧ is_valid_max_window_bits "" = false
    ∧ is_valid_max_window_bits "0" = false
    ∧ is_valid_max_window_bits "08" = false
    ∧ is_valid_max_window_bits "+8" = false
    ∧ is_valid_max_window_bits "-8" = false
    ∧ is_valid_max_window_bits "16" = false := by
  refine ⟨fun s => ?_, by decide, by decide, by decide, by decide, by decide, by decide⟩
  simp only [is_valid_max_window_bits, Bool.or_eq_true, beq_iff_eq]
  tauto

/-- C3 counterexample: a `server_max_window_bits` parameter with *no* value
makes `DeflateContext::new` fail with `MissingServerMaxWindowBitsValue`, an
error distinct from the two the claim allows for this parameter. -/
theorem smax_no_value_counterexample :
    DeflateContext.new toyCodec DeflateConfig.default [(PARAM_SERVER_MAX_WINDOW_BITS, none)]
      = .error (.Negotiation .MissingServerMaxWindowBitsValue)
    ∧ (match DeflateContext.new toyCodec DeflateConfig.default
          [(PARAM_SERVER_MAX_WINDOW_BITS, none)] with
        | .error (.Negotiation .ServerMaxWindowBitsNotSupported) => False
        | .error (.Negotiation (.InvalidServerMaxWindowBitsValue _)) => False
        | _ => True) :=
  ⟨rfl, trivial⟩

/-- C3 (amended): a response containing any `server_max_window_bits` parameter
never verifies; when the parameter itself is reached the error is
`ServerMaxWindowBitsNotSupported` for a well-formed value,
`InvalidServerMaxWindowBitsValue` for a malformed value, and
`MissingServerMaxWindowBitsValue` when the value is absent. -/
theorem verify_smax_always_fails (C : Codec) (cfg : DeflateConfig) :
    (∀ (ps : List (String × Option String)) (v : Option String),
      (PARAM_SERVER_MAX_WINDOW_BITS, v) ∈ ps →
      ∃ e, DeflateContext.new C cfg ps = .error e)
    ∧ (∀ (s : String) (rest : List (String × Option String)),
      DeflateContext.new C cfg ((PARAM_SERVER_MAX_WINDOW_BITS, some s) :: rest)
        = .error (.Negotiation (if is_valid_max_window_bits s
            then .ServerMaxWindowBitsNotSupported
            else .InvalidServerMaxWindowBitsValue s)))
    ∧ (∀ rest : List (String × Option String),
      DeflateContext.new C cfg ((PARAM_SERVER_MAX_WINDOW_BITS, none) :: rest)
        = .error (.Negotiation .MissingServerMaxWindowBitsValue)) := by
  refine ⟨fun ps v hmem => ?_, fun s rest => ?_, fun rest => ?_⟩
  · obtain ⟨e, he⟩ := nl_smax_fails ps _ false false v hmem
    exact ⟨e, new_error_of_loop he⟩
  · refine new_error_of_loop ?_
    cases hb : is_valid_max_window_bits s <;> simp [newLoop, hb]
  · exact new_error_of_loop (by simp [newLoop])

/-- C3 witness: the three parts of `verify_smax_always_fails` at concrete inputs. -/
theorem verify_smax_always_fails_witness :
    (∃ e, DeflateContext.new toyCodec DeflateConfig.default
      [(PARAM_SERVER_MAX_WINDOW_BITS, some "10")] = .error e)
    ∧ DeflateContext.new toyCodec DeflateConfig.default
        [(PARAM_SERVER_MAX_WINDOW_BITS, some "07")]
        = .error (.Negotiation (if is_valid_max_window_bits "07"
            then .ServerMaxWindowBitsNotSupported
            else .InvalidServerMaxWindowBitsValue "07"))
    ∧ DeflateContext.new toyCodec DeflateConfig.default
        [(PARAM_SERVER_MAX_WINDOW_BITS, none)]
        = .error (.Negotiation .MissingServerMaxWindowBitsValue) :=
  ⟨(verify_smax_always_fails toyCodec DeflateConfig.default).1 _ (some "10") (by simp),
    (verify_smax_always_fails toyCodec DeflateConfig.default).2.1 "07" [],
    (verify_smax_always_fails toyCodec DeflateConfig.default).2.2 []⟩

/-- C5 counterexample: with an unknown parameter ahead of a duplicated
`server_no_context_takeover`, `DeflateContext::new` fails with
`UnknownParameter`, not `DuplicateParameter`. -/
theorem duplicate_nct_counterexample :
    DeflateContext.new toyCodec DeflateConfig.default
        [("unknown", none), (PARAM_SERVER_NO_CONTEXT_TAKEOVER, none),
          (PARAM_SERVER_NO_CONTEXT_TAKEOVER, none)]
      = .error (.Negotiation (.UnknownParameter "unknown"))
    ∧ (match DeflateContext.new toyCodec DeflateConfig.default
          [("unknown", none), (PARAM_SERVER_NO_CONTEXT_TAKEOVER, none),
            (PARAM_SERVER_NO_CONTEXT_TAKEOVER, none)] with
        | .error (.Negotiation (.DuplicateParameter _)) => False
        | _ => True) :=
  ⟨rfl, trivial⟩

/-- C5 (amended): a duplicated `server_no_context_takeover` or
`client_no_context_takeover` always makes verification fail; the error is
`DuplicateParameter` whenever the parameter list is confined to those two
tokens; and on success a `server_no_context_takeover` occurrence has set the
resolved `request_no_context_takeover` flag. -/
theorem verify_duplicate_nct (C : Codec) (cfg : DeflateConfig)
    (ps : List (String × Option String)) :
    ((2 ≤ countKey PARAM_SERVER_NO_CONTEXT_TAKEOVER ps ∨
        2 ≤ countKey PARAM_CLIENT_NO_CONTEXT_TAKEOVER ps) →
      ∃ e, DeflateContext.new C cfg ps = .error e)
    ∧ ((∀ p ∈ ps, p.1 = PARAM_SERVER_NO_CONTEXT_TAKEOVER ∨
          p.1 = PARAM_CLIENT_NO_CONTEXT_TAKEOVER) →
       (2 ≤ countKey PARAM_SERVER_NO_CONTEXT_TAKEOVER ps ∨
          2 ≤ countKey PARAM_CLIENT_NO_CONTEXT_TAKEOVER ps) →
       ∃ name, DeflateContext.new C cfg ps
         = .error (.Negotiation (.DuplicateParameter name)))
    ∧ (∀ (ctx : DeflateContext C) (v : Option String),
        DeflateContext.new C cfg ps = .ok ctx →
        (PARAM_SERVER_NO_CONTEXT_TAKEOVER, v) ∈ ps →
        ctx.config.request_no_context_takeover = true) := by
  refine ⟨?_, ?_, ?_⟩
  · intro h
    rcases h with h | h
    · obtain ⟨e, he⟩ := nl_dup_snct ps _ false false (Or.inl h)
      exact ⟨e, new_error_of_loop he⟩
    · obtain ⟨e, he⟩ := nl_dup_cnct ps _ false false (Or.inl h)
      exact ⟨e, new_error_of_loop he⟩
  · intro hall h
    have h' := nl_dup_restricted ps
      { DeflateConfig.default with accept_no_context_takeover := cfg.accept_no_context_takeover }
      false false hall (by rcases h with h | h; exacts [Or.inl (Or.inl h), Or.inr (Or.inl h)])
    obtain ⟨name, he⟩ := h'
    exact ⟨name, new_error_of_loop he⟩
  · intro ctx v hok hmem
    simp only [DeflateContext.new, DeflateContext.newConfig] at hok
    cases hnc : newLoop ps
        { DeflateConfig.default with
            accept_no_context_takeover := cfg.accept_no_context_takeover }
        false false with
    | error e => rw [hnc] at hok; simp [Except.map] at hok
    | ok cfg2 =>
      rw [hnc] at hok
      simp only [Except.map, Except.ok.injEq] at hok
      have hreq := (nl_ok_request ps _ false false cfg2 hnc).mpr (Or.inr ⟨v, hmem⟩)
      rw [← hok]
      exact hreq

/-- C5 witness: the three parts of `verify_duplicate_nct` at concrete inputs. -/
theorem verify_duplicate_nct_witness :
    (∃ e, DeflateContext.new toyCodec DeflateConfig.default
      [(PARAM_SERVER_NO_CONTEXT_TAKEOVER, none), (PARAM_SERVER_NO_CONTEXT_TAKEOVER, none)]
      = .error e)
    ∧ (∃ name, DeflateContext.new toyCodec DeflateConfig.default
        [(PARAM_SERVER_NO_CONTEXT_TAKEOVER, none), (PARAM_SERVER_NO_CONTEXT_TAKEOVER, none)]
        = .error (.Negotiation (.DuplicateParameter name)))
    ∧ ((DeflateContext.fromConfig toyCodec
          { compression := 6, request_no_context_takeover := true,
            accept_no_context_takeover := false }).config.request_no_context_takeover = true) :=
  ⟨(verify_duplicate_nct toyCodec DeflateConfig.default
      [(PARAM_SERVER_NO_CONTEXT_TAKEOVER, none), (PARAM_SERVER_NO_CONTEXT_TAKEOVER, none)]).1
      (Or.inl (by decide)),
    (verify_duplicate_nct toyCodec DeflateConfig.default
      [(PARAM_SERVER_NO_CONTEXT_TAKEOVER, none), (PARAM_SERVER_NO_CONTEXT_TAKEOVER, none)]).2.1
      (by intro p hp; fin_cases hp <;> simp)
      (Or.inl (by decide)),
    (verify_duplicate_nct toyCodec DeflateConfig.default
      [(PARAM_SERVER_NO_CONTEXT_TAKEOVER, none)]).2.2
      (DeflateContext.fromConfig toyCodec
        { compression := 6, request_no_context_takeover := true,
          accept_no_context_takeover := false }) none rfl (by simp)⟩

/-- C10: on success, the resolved context starts from defaults: the caller's
compression level is discarded (the context's config and its compressor use the
default level), and the caller's `request_no_context_takeover` flag is
discarded — the resolved flag is set iff the response contains
`server_no_context_takeover`. -/
theorem new_discards_caller_config (C : Codec) (cfg : DeflateConfig)
    (ps : List (String × Option String)) (ctx : DeflateContext C)
    (hok : DeflateContext.new C cfg ps = .ok ctx) :
    ctx.config.compression = DeflateConfig.default.compression
    ∧ ctx.compressor.st = C.cNew DeflateConfig.default.compression false
    ∧ (ctx.config.request_no_context_takeover = true ↔
        ∃ v, (PARAM_SERVER_NO_CONTEXT_TAKEOVER, v) ∈ ps) := by
  simp only [DeflateContext.new, DeflateContext.newConfig] at hok
  cases hnc : newLoop ps
      { DeflateConfig.default with
          accept_no_context_takeover := cfg.accept_no_context_takeover }
      false false with
  | error e => rw [hnc] at hok; simp [Except.map] at hok
  | ok cfg2 =>
    rw [hnc] at hok
    simp only [Except.map, Except.ok.injEq] at hok
    have hcomp := nl_ok_compression ps _ false false cfg2 hnc
    have hreq := nl_ok_request ps _ false false cfg2 hnc
    rw [← hok]
    refine ⟨hcomp, ?_, ?_⟩
    · simp [DeflateContext.fromConfig, hcomp, DeflateConfig.default]
    · simpa [DeflateContext.fromConfig, DeflateConfig.default] using hreq

/-- C10 witness: `new_discards_caller_config` at a caller config with
non-default compression level and `request_no_context_takeover` set, against a
response without `server_no_context_takeover`. -/
theorem new_discards_caller_config_witness :
    (DeflateContext.fromConfig toyCodec
        { compression := 6, request_no_context_takeover := false,
          accept_no_context_takeover := true }).config.compression
      = DeflateConfig.default.compression
    ∧ (DeflateContext.fromConfig toyCodec
        { compression := 6, request_no_context_takeover := false,
          accept_no_context_takeover := true }).compressor.st
      = toyCodec.cNew DeflateConfig.default.compression false
    ∧ ((DeflateContext.fromConfig toyCodec
        { compression := 6, request_no_context_takeover := false,
          accept_no_context_takeover := true }).config.request_no_context_takeover = true ↔
        ∃ v, (PARAM_SERVER_NO_CONTEXT_TAKEOVER, v)
          ∈ [(PARAM_CLIENT_NO_CONTEXT_TAKEOVER, (none : Option String))]) :=
  new_discards_caller_config toyCodec
    { compression := 2, request_no_context_takeover := true,
      accept_no_context_takeover := false }
    [(PARAM_CLIENT_NO_CONTEXT_TAKEOVER, none)]
    (DeflateContext.fromConfig toyCodec
      { compression := 6, request_no_context_takeover := false,
        accept_no_context_takeover := true })
    rfl

/-! Section: Lemmas about the offer-acceptance loop -/

/-- An unrecognized parameter name anywhere in the offer makes the acceptance
loop decline. -/
theorem aol_unknown (ps : List (String × Option String)) :
    ∀ (acc : List (String × Option String)) (cfg : DeflateConfig) (sS sC sW : Bool)
      (k : String) (v : Option String), (k, v) ∈ ps →
      k ≠ PARAM_SERVER_NO_CONTEXT_TAKEOVER → k ≠ PARAM_CLIENT_NO_CONTEXT_TAKEOVER →
      k ≠ PARAM_SERVER_MAX_WINDOW_BITS → k ≠ PARAM_CLIENT_MAX_WINDOW_BITS →
      acceptOfferLoop ps acc cfg sS sC sW = none := by
  induction ps with
  | nil => intro acc cfg sS sC sW k v h _ _ _ _; simp at h
  | cons head rest ih =>
    intro acc cfg sS sC sW k v h hn1 hn2 hn3 hn4
    obtain ⟨key, val⟩ := head
    rcases List.mem_cons.mp h with hh | ht
    · injection hh with hk hv
      subst hk; subst hv
      simp [acceptOfferLoop, hn1, hn2, hn3, hn4]
    · by_cases h1 : key = PARAM_SERVER_NO_CONTEXT_TAKEOVER
      · subst h1
        cases sS with
        | true => simp [acceptOfferLoop]
        | false =>
          have := ih (acc ++ [(PARAM_SERVER_NO_CONTEXT_TAKEOVER, none)])
            { cfg with request_no_context_takeover := true } true sC sW k v ht hn1 hn2 hn3 hn4
          simpa [acceptOfferLoop] using this
      · by_cases h2 : key = PARAM_CLIENT_NO_CONTEXT_TAKEOVER
        · subst h2
          cases sC with
          | true => simp [acceptOfferLoop]
          | false =>
            have := ih (acc ++ [(PARAM_CLIENT_NO_CONTEXT_TAKEOVER, none)])
              { cfg with accept_no_context_takeover := true } sS true sW k v ht hn1 hn2 hn3 hn4
            simpa [acceptOfferLoop] using this
        · by_cases h3 : key = PARAM_SERVER_MAX_WINDOW_BITS
          · subst h3
            cases val with
            | none => simp [acceptOfferLoop]
            | some bits =>
              cases hb : is_valid_max_window_bits bits <;> simp [acceptOfferLoop, hb]
          · by_cases h4 : key = PARAM_CLIENT_MAX_WINDOW_BITS
            · subst h4
              cases val with
              | none =>
                cases sW with
                | true => simp [acceptOfferLoop]
                | false =>
                  have := ih acc cfg sS sC true k v ht hn1 hn2 hn3 hn4
                  simpa [acceptOfferLoop] using this
              | some bits =>
                cases hb : is_valid_max_window_bits bits with
                | false => simp [acceptOfferLoop, hb]
                | true =>
                  cases sW with
                  | true => simp [acceptOfferLoop, hb]
                  | false =>
                    have := ih acc cfg sS sC true k v ht hn1 hn2 hn3 hn4
                    simpa [acceptOfferLoop, hb] using this
            · simp [acceptOfferLoop, h1, h2, h3, h4]

/-- A `server_max_window_bits` parameter anywhere in the offer (any value or
none) makes the acceptance loop decline. -/
theorem aol_smax (ps : List (String × Option String)) :
    ∀ (acc : List (String × Option String)) (cfg : DeflateConfig) (sS sC sW : Bool)
      (v : Option String), (PARAM_SERVER_MAX_WINDOW_BITS, v) ∈ ps →
      acceptOfferLoop ps acc cfg sS sC sW = none := by
  induction ps with
  | nil => intro acc cfg sS sC sW v h; simp at h
  | cons head rest ih =>
    intro acc cfg sS sC sW v h
    obtain ⟨key, val⟩ := head
    rcases List.mem_cons.mp h with hh | ht
    · injection hh with hk hv
      subst hk; subst hv
      cases v with
      | none => simp [acceptOfferLoop]
      | some bits => cases hb : is_valid_max_window_bits bits <;> simp [acceptOfferLoop, hb]
    · by_cases h1 : key = PARAM_SERVER_NO_CONTEXT_TAKEOVER
      · subst h1
        cases sS with
        | true => simp [acceptOfferLoop]
        | false =>
          have := ih (acc ++ [(PARAM_SERVER_NO_CONTEXT_TAKEOVER, none)])
            { cfg with request_no_context_takeover := true } true sC sW v ht
          simpa [acceptOfferLoop] using this
      · by_cases h2 : key = PARAM_CLIENT_NO_CONTEXT_TAKEOVER
        · subst h2
          cases sC with
          | true => simp [acceptOfferLoop]
          | false =>
            have := ih (acc ++ [(PARAM_CLIENT_NO_CONTEXT_TAKEOVER, none)])
              { cfg with accept_no_context_takeover := true } sS true sW v ht
            simpa [acceptOfferLoop] using this
        · by_cases h3 : key = PARAM_SERVER_MAX_WINDOW_BITS
          · subst h3
            cases val with
            | none => simp [acceptOfferLoop]
            | some bits =>
              cases hb : is_valid_max_window_bits bits <;> simp [acceptOfferLoop, hb]
          · by_cases h4 : key = PARAM_CLIENT_MAX_WINDOW_BITS
            · subst h4
              cases val with
              | none =>
                cases sW with
                | true => simp [acceptOfferLoop]
                | false =>
                  have := ih acc cfg sS sC true v ht
                  simpa [acceptOfferLoop] using this
              | some bits =>
                cases hb : is_valid_max_window_bits bits with
                | false => simp [acceptOfferLoop, hb]
                | true =>
                  cases sW with
                  | true => simp [acceptOfferLoop, hb]
                  | false =>
                    have := ih acc cfg sS sC true v ht
                    simpa [acceptOfferLoop, hb] using this
            · simp [acceptOfferLoop, h1, h2, h3, h4]

/-- A `client_max_window_bits` parameter with a malformed value anywhere in the
offer makes the acceptance loop decline. -/
theorem aol_cmax_invalid (ps : List (String × Option String)) :
    ∀ (acc : List (String × Option String)) (cfg : DeflateConfig) (sS sC sW : Bool)
      (s : String), (PARAM_CLIENT_MAX_WINDOW_BITS, some s) ∈ ps →
      is_valid_max_window_bits s = false →
      acceptOfferLoop ps acc cfg sS sC sW = none := by
  induction ps with
  | nil => intro acc cfg sS sC sW s h _; simp at h
  | cons head rest ih =>
    intro acc cfg sS sC sW s h hs
    obtain ⟨key, val⟩ := head
    rcases List.mem_cons.mp h with hh | ht
    · injection hh with hk hv
      subst hk; subst hv
      simp [acceptOfferLoop, hs]
    · by_cases h1 : key = PARAM_SERVER_NO_CONTEXT_TAKEOVER
      · subst h1
        cases sS with
        | true => simp [acceptOfferLoop]
        | false =>
          have := ih (acc ++ [(PARAM_SERVER_NO_CONTEXT_TAKEOVER, none)])
            { cfg with request_no_context_takeover := true } true sC sW s ht hs
          simpa [acceptOfferLoop] using this
      · by_cases h2 : key = PARAM_CLIENT_NO_CONTEXT_TAKEOVER
        · subst h2
          cases sC with
          | true => simp [acceptOfferLoop]
          | false =>
            have := ih (acc ++ [(PARAM_CLIENT_NO_CONTEXT_TAKEOVER, none)])
              { cfg with accept_no_context_takeover := true } sS true sW s ht hs
            simpa [acceptOfferLoop] using this
        · by_cases h3 : key = PARAM_SERVER_MAX_WINDOW_BITS
          · subst h3
            cases val with
            | none => simp [acceptOfferLoop]
            | some bits =>
              cases hb : is_valid_max_window_bits bits <;> simp [acceptOfferLoop, hb]
          · by_cases h4 : key = PARAM_CLIENT_MAX_WINDOW_BITS
            · subst h4
              cases val with
              | none =>
                cases sW with
                | true => simp [acceptOfferLoop]
                | false =>
                  have := ih acc cfg sS sC true s ht hs
                  simpa [acceptOfferLoop] using this
              | some bits =>
                cases hb : is_valid_max_window_bits bits with
                | false => simp [acceptOfferLoop, hb]
                | true =>
                  cases sW with
                  | true => simp [acceptOfferLoop, hb]
                  | false =>
                    have := ih acc cfg sS sC true s ht hs
                    simpa [acceptOfferLoop, hb] using this
            · simp [acceptOfferLoop, h1, h2, h3, h4]

/-- A duplicated `server_no_context_takeover` (two remaining, or one remaining
with its seen-flag set) makes the acceptance loop decline. -/
theorem aol_dup_snct (ps : List (String × Option String)) :
    ∀ (acc : List (String × Option String)) (cfg : DeflateConfig) (sS sC sW : Bool),
      (2 ≤ countKey PARAM_SERVER_NO_CONTEXT_TAKEOVER ps ∨
        (sS = true ∧ 1 ≤ countKey PARAM_SERVER_NO_CONTEXT_TAKEOVER ps)) →
      acceptOfferLoop ps acc cfg sS sC sW = none := by
  induction ps with
  | nil => intro acc cfg sS sC sW h; simp [countKey] at h
  | cons head rest ih =>
    intro acc cfg sS sC sW h
    obtain ⟨key, val⟩ := head
    by_cases h1 : key = PARAM_SERVER_NO_CONTEXT_TAKEOVER
    · subst h1
      cases sS with
      | true => simp [acceptOfferLoop]
      | false =>
        have hc : 1 ≤ countKey PARAM_SERVER_NO_CONTEXT_TAKEOVER rest := by
          rcases h with h | ⟨hf, _⟩
          · simp [countKey] at h; omega
          · exact absurd hf (by simp)
        have := ih (acc ++ [(PARAM_SERVER_NO_CONTEXT_TAKEOVER, none)])
          { cfg with request_no_context_takeover := true } true sC sW (Or.inr ⟨rfl, hc⟩)
        simpa [acceptOfferLoop] using this
    · have hcount : countKey PARAM_SERVER_NO_CONTEXT_TAKEOVER ((key, val) :: rest) =
          countKey PARAM_SERVER_NO_CONTEXT_TAKEOVER rest := by
        simp [countKey, h1]
      rw [hcount] at h
      by_cases h2 : key = PARAM_CLIENT_NO_CONTEXT_TAKEOVER
      · subst h2
        cases sC with
        | true => simp [acceptOfferLoop]
        | false =>
          have := ih (acc ++ [(PARAM_CLIENT_NO_CONTEXT_TAKEOVER, none)])
            { cfg with accept_no_context_takeover := true } sS true sW h
          simpa [acceptOfferLoop] using this
      · by_cases h3 : key = PARAM_SERVER_MAX_WINDOW_BITS
        · subst h3
          cases val with
          | none => simp [acceptOfferLoop]
          | some bits =>
            cases hb : is_valid_max_window_bits bits <;> simp [acceptOfferLoop, hb]
        · by_cases h4 : key = PARAM_CLIENT_MAX_WINDOW_BITS
          · subst h4
            cases val with
            | none =>
              cases sW with
              | true => simp [acceptOfferLoop]
              | false =>
                have := ih acc cfg sS sC true h
                simpa [acceptOfferLoop] using this
            | some bits =>
              cases hb : is_valid_max_window_bits bits with
              | false => simp [acceptOfferLoop, hb]
              | true =>
                cases sW with
                | true => simp [acceptOfferLoop, hb]
                | false =>
                  have := ih acc cfg sS sC true h
                  simpa [acceptOfferLoop, hb] using this
          · simp [acceptOfferLoop, h1, h2, h3, h4]

/-- A duplicated `client_no_context_takeover` makes the acceptance loop
decline. -/
theorem aol_dup_cnct (ps : List (String × Option String)) :
    ∀ (acc : List (String × Option String)) (cfg : DeflateConfig) (sS sC sW : Bool),
      (2 ≤ countKey PARAM_CLIENT_NO_CONTEXT_TAKEOVER ps ∨
        (sC = true ∧ 1 ≤ countKey PARAM_CLIENT_NO_CONTEXT_TAKEOVER ps)) →
      acceptOfferLoop ps acc cfg sS sC sW = none := by
  induction ps with
  | nil => intro acc cfg sS sC sW h; simp [countKey] at h
  | cons head rest ih =>
    intro acc cfg sS sC sW h
    obtain ⟨key, val⟩ := head
    by_cases h2 : key = PARAM_CLIENT_NO_CONTEXT_TAKEOVER
    · subst h2
      cases sC with
      | true => simp [acceptOfferLoop]
      | false =>
        have hc : 1 ≤ countKey PARAM_CLIENT_NO_CONTEXT_TAKEOVER rest := by
          rcases h with h | ⟨hf, _⟩
          · simp [countKey] at h; omega
          · exact absurd hf (by simp)
        have := ih (acc ++ [(PARAM_CLIENT_NO_CONTEXT_TAKEOVER, none)])
          { cfg with accept_no_context_takeover := true } sS true sW (Or.inr ⟨rfl, hc⟩)
        simpa [acceptOfferLoop] using this
    · have hcount : countKey PARAM_CLIENT_NO_CONTEXT_TAKEOVER ((key, val) :: rest) =
          countKey PARAM_CLIENT_NO_CONTEXT_TAKEOVER rest := by
        simp [countKey, h2]
      rw [hcount] at h
      by_cases h1 : key = PARAM_SERVER_NO_CONTEXT_TAKEOVER
      · subst h1
        cases sS with
        | true => simp [acceptOfferLoop]
        | false =>
          have := ih (acc ++ [(PARAM_SERVER_NO_CONTEXT_TAKEOVER, none)])
            { cfg with request_no_context_takeover := true } true sC sW h
          simpa [acceptOfferLoop] using this
      · by_cases h3 : key = PARAM_SERVER_MAX_WINDOW_BITS
        · subst h3
          cases val with
          | none => simp [acceptOfferLoop]
          | some bits =>
            cases hb : is_valid_max_window_bits bits <;> simp [acceptOfferLoop, hb]
        · by_cases h4 : key = PARAM_CLIENT_MAX_WINDOW_BITS
          · subst h4
            cases val with
            | none =>
              cases sW with
              | true => simp [acceptOfferLoop]
              | false =>
                have := ih acc cfg sS sC true h
                simpa [acceptOfferLoop] using this
            | some bits =>
              cases hb : is_valid_max_window_bits bits with
              | false => simp [acceptOfferLoop, hb]
              | true =>
                cases sW with
                | true => simp [acceptOfferLoop, hb]
                | false =>
                  have := ih acc cfg sS sC true h
                  simpa [acceptOfferLoop, hb] using this
          · simp [acceptOfferLoop, h1, h2, h3, h4]

/-- A duplicated `client_max_window_bits` makes the acceptance loop decline. -/
theorem aol_dup_cmax (ps : List (String × Option String)) :
    ∀ (acc : List (String × Option String)) (cfg : DeflateConfig) (sS sC sW : Bool),
      (2 ≤ countKey PARAM_CLIENT_MAX_WINDOW_BITS ps ∨
        (sW = true ∧ 1 ≤ countKey PARAM_CLIENT_MAX_WINDOW_BITS ps)) →
      acceptOfferLoop ps acc cfg sS sC sW = none := by
  induction ps with
  | nil => intro acc cfg sS sC sW h; simp [countKey] at h
  | cons head rest ih =>
    intro acc cfg sS sC sW h
    obtain ⟨key, val⟩ := head
    by_cases h4 : key = PARAM_CLIENT_MAX_WINDOW_BITS
    · subst h4
      have hc : sW = true → acceptOfferLoop
          ((PARAM_CLIENT_MAX_WINDOW_BITS, val) :: rest) acc cfg sS sC sW = none := by
        intro hw
        subst hw
        cases val with
        | none => simp [acceptOfferLoop]
        | some bits =>
          cases hb : is_valid_max_window_bits bits <;> simp [acceptOfferLoop, hb]
      cases sW with
      | true => exact hc rfl
      | false =>
        have hrest : 1 ≤ countKey PARAM_CLIENT_MAX_WINDOW_BITS rest := by
          rcases h with h | ⟨hf, _⟩
          · simp [countKey] at h; omega
          · exact absurd hf (by simp)
        have hihr := ih acc cfg sS sC true (Or.inr ⟨rfl, hrest⟩)
        cases val with
        | none => simpa [acceptOfferLoop] using hihr
        | some bits =>
          cases hb : is_valid_max_window_bits bits with
          | false => simp [acceptOfferLoop, hb]
          | true => simpa [acceptOfferLoop, hb] using hihr
    · have hcount : countKey PARAM_CLIENT_MAX_WINDOW_BITS ((key, val) :: rest) =
          countKey PARAM_CLIENT_MAX_WINDOW_BITS rest := by
        simp [countKey, h4]
      rw [hcount] at h
      by_cases h1 : key = PARAM_SERVER_NO_CONTEXT_TAKEOVER
      · subst h1
        cases sS with
        | true => simp [acceptOfferLoop]
        | false =>
          have := ih (acc ++ [(PARAM_SERVER_NO_CONTEXT_TAKEOVER, none)])
            { cfg with request_no_context_takeover := true } true sC sW h
          simpa [acceptOfferLoop] using this
      · by_cases h2 : key = PARAM_CLIENT_NO_CONTEXT_TAKEOVER
        · subst h2
          cases sC with
          | true => simp [acceptOfferLoop]
          | false =>
            have := ih (acc ++ [(PARAM_CLIENT_NO_CONTEXT_TAKEOVER, none)])
              { cfg with accept_no_context_takeover := true } sS true sW h
            simpa [acceptOfferLoop] using this
        · by_cases h3 : key = PARAM_SERVER_MAX_WINDOW_BITS
          · subst h3
            cases val with
            | none => simp [acceptOfferLoop]
            | some bits =>
              cases hb : is_valid_max_window_bits bits <;> simp [acceptOfferLoop, hb]
          · simp [acceptOfferLoop, h1, h2, h3, h4]

/-- The accepted response parameters contain the bare
`client_no_context_takeover` token iff the accumulator already holds it or the
(unseen) offer suffix mentions the parameter. -/
theorem aol_cnct_echo (ps : List (String × Option String)) :
    ∀ (acc : List (String × Option String)) (cfg : DeflateConfig) (sS sC sW : Bool)
      (out : List (String × Option String)),
      acceptOfferLoop ps acc cfg sS sC sW = some out →
      ((PARAM_CLIENT_NO_CONTEXT_TAKEOVER, (none : Option String)) ∈ out ↔
        ((PARAM_CLIENT_NO_CONTEXT_TAKEOVER, (none : Option String)) ∈ acc ∨
          (sC = false ∧ ∃ v, (PARAM_CLIENT_NO_CONTEXT_TAKEOVER, v) ∈ ps))) := by
  induction ps with
  | nil =>
    intro acc cfg sS sC sW out h
    simp [acceptOfferLoop] at h
    rw [← h]
    simp
  | cons head rest ih =>
    intro acc cfg sS sC sW out h
    obtain ⟨key, val⟩ := head
    by_cases h1 : key = PARAM_SERVER_NO_CONTEXT_TAKEOVER
    · subst h1
      cases sS with
      | true => simp [acceptOfferLoop] at h
      | false =>
        have hih := ih (acc ++ [(PARAM_SERVER_NO_CONTEXT_TAKEOVER, none)])
          { cfg with request_no_context_takeover := true } true sC sW out
          (by simpa [acceptOfferLoop] using h)
        rw [hih]
        simp [List.mem_append]
    · by_cases h2 : key = PARAM_CLIENT_NO_CONTEXT_TAKEOVER
      · subst h2
        cases sC with
        | true => simp [acceptOfferLoop] at h
        | false =>
          have hih := ih (acc ++ [(PARAM_CLIENT_NO_CONTEXT_TAKEOVER, none)])
            { cfg with accept_no_context_takeover := true } sS true sW out
            (by simpa [acceptOfferLoop] using h)
          rw [hih]
          simp [List.mem_append]
      · by_cases h3 : key = PARAM_SERVER_MAX_WINDOW_BITS
        · subst h3
          exact absurd h (by
            cases val with
            | none => simp [acceptOfferLoop]
            | some bits =>
              cases hb : is_valid_max_window_bits bits <;> simp [acceptOfferLoop, hb])
        · by_cases h4 : key = PARAM_CLIENT_MAX_WINDOW_BITS
          · subst h4
            have hnext : acceptOfferLoop rest acc cfg sS sC true = some out := by
              cases val with
              | none =>
                cases sW with
                | true => simp [acceptOfferLoop] at h
                | false => simpa [acceptOfferLoop] using h
              | some bits =>
                cases hb : is_valid_max_window_bits bits with
                | false => simp [acceptOfferLoop, hb] at h
                | true =>
                  cases sW with
                  | true => simp [acceptOfferLoop, hb] at h
                  | false => simpa [acceptOfferLoop, hb] using h
            have hih := ih acc cfg sS sC true out hnext
            rw [hih]
            simp
          · simp [acceptOfferLoop, h1, h2, h3, h4] at h

/-- A key counted at least once is present. -/
theorem countKey_pos_mem (k : String) (ps : List (String × Option String))
    (h : 1 ≤ countKey k ps) : ∃ v, (k, v) ∈ ps := by
  induction ps with
  | nil => simp [countKey] at h
  | cons head rest ih =>
    obtain ⟨a, b⟩ := head
    by_cases ha : a = k
    · exact ⟨b, by simp [ha]⟩
    · simp only [countKey, ha, if_false] at h
      obtain ⟨v, hv⟩ := ih (by omega)
      exact ⟨v, List.mem_cons_of_mem _ hv⟩

/-! Section: Claim theorems: negotiation, acceptance side -/

/-- C4: `accept_offer` declines (returns `None`) whenever the offer's name is
not "permessage-deflate", or some parameter name is unrecognized, or a
recognized parameter appears more than once, or a max-window-bits value is
present but malformed, or a `server_max_window_bits` parameter is present at
all. -/
theorem accept_offer_decline (cfg : DeflateConfig) (offer : WebSocketExtension)
    (h : offer.name ≠ PERMESSAGE_DEFLATE_NAME
      ∨ (∃ k v, (k, v) ∈ offer.params ∧ k ≠ PARAM_SERVER_NO_CONTEXT_TAKEOVER ∧
          k ≠ PARAM_CLIENT_NO_CONTEXT_TAKEOVER ∧ k ≠ PARAM_SERVER_MAX_WINDOW_BITS ∧
          k ≠ PARAM_CLIENT_MAX_WINDOW_BITS)
      ∨ (∃ k, (k = PARAM_SERVER_NO_CONTEXT_TAKEOVER ∨ k = PARAM_CLIENT_NO_CONTEXT_TAKEOVER ∨
          k = PARAM_SERVER_MAX_WINDOW_BITS ∨ k = PARAM_CLIENT_MAX_WINDOW_BITS) ∧
          2 ≤ countKey k offer.params)
      ∨ (∃ k s, (k = PARAM_SERVER_MAX_WINDOW_BITS ∨ k = PARAM_CLIENT_MAX_WINDOW_BITS) ∧
          (k, some s) ∈ offer.params ∧ is_valid_max_window_bits s = false)
      ∨ (∃ v, (PARAM_SERVER_MAX_WINDOW_BITS, v) ∈ offer.params)) :
    DeflateConfig.accept_offer cfg offer = none := by
  by_cases hname : offer.name = PERMESSAGE_DEFLATE_NAME
  · suffices hl : acceptOfferLoop offer.params [] DeflateConfig.default false false false
        = none by
      simp [DeflateConfig.accept_offer, hname, hl]
    rcases h with hn | ⟨k, v, hm, h1, h2, h3, h4⟩ | ⟨k, hk, hc⟩ | ⟨k, s, hk, hm, hs⟩ | ⟨v, hm⟩
    · exact absurd hname hn
    · exact aol_unknown _ _ _ _ _ _ k v hm h1 h2 h3 h4
    · rcases hk with rfl | rfl | rfl | rfl
      · exact aol_dup_snct _ _ _ _ _ _ (Or.inl hc)
      · exact aol_dup_cnct _ _ _ _ _ _ (Or.inl hc)
      · obtain ⟨v, hv⟩ := countKey_pos_mem PARAM_SERVER_MAX_WINDOW_BITS offer.params (by omega)
        exact aol_smax _ _ _ _ _ _ v hv
      · exact aol_dup_cmax _ _ _ _ _ _ (Or.inl hc)
    · rcases hk with rfl | rfl
      · exact aol_smax _ _ _ _ _ _ (some s) hm
      · exact aol_cmax_invalid _ _ _ _ _ _ s hm hs
    · exact aol_smax _ _ _ _ _ _ v hm
  · simp [DeflateConfig.accept_offer, hname]

/-- C4 witness: an offer with an unrecognized parameter name is declined. -/
theorem accept_offer_decline_witness :
    DeflateConfig.accept_offer DeflateConfig.default
      { name := PERMESSAGE_DEFLATE_NAME, params := [("unknown_parameter", none)] } = none :=
  accept_offer_decline DeflateConfig.default
    { name := PERMESSAGE_DEFLATE_NAME, params := [("unknown_parameter", none)] }
    (Or.inr (Or.inl ⟨"unknown_parameter", none, by simp, by decide, by decide, by decide,
      by decide⟩))

/-- C9: `accept_offer` is independent of the local config (the compression
level and both local flags have no influence), and an accepted response echoes
the bare `client_no_context_takeover` token exactly when the offer mentions the
parameter. -/
theorem accept_offer_config_independent :
    (∀ (c1 c2 : DeflateConfig) (offer : WebSocketExtension),
      DeflateConfig.accept_offer c1 offer = DeflateConfig.accept_offer c2 offer)
    ∧ (∀ (cfg : DeflateConfig) (offer resp : WebSocketExtension),
      DeflateConfig.accept_offer cfg offer = some resp →
      ((PARAM_CLIENT_NO_CONTEXT_TAKEOVER, (none : Option String)) ∈ resp.params ↔
        ∃ v, (PARAM_CLIENT_NO_CONTEXT_TAKEOVER, v) ∈ offer.params)) := by
  constructor
  · intro c1 c2 offer
    rfl
  · intro cfg offer resp h
    by_cases hname : offer.name = PERMESSAGE_DEFLATE_NAME
    · simp only [DeflateConfig.accept_offer, hname, if_pos] at h
      cases hl : acceptOfferLoop offer.params [] DeflateConfig.default false false false with
      | none => rw [hl] at h; simp at h
      | some out =>
        rw [hl] at h
        simp only [Option.map_some', Option.some.injEq] at h
        have hecho := aol_cnct_echo offer.params [] DeflateConfig.default false false false
          out hl
        rw [← h]
        simpa using hecho
    · simp [DeflateConfig.accept_offer, hname] at h

/-- C9 witness: the echo property at an offer containing the bare
`client_no_context_takeover` token. -/
theorem accept_offer_config_independent_witness :
    (PARAM_CLIENT_NO_CONTEXT_TAKEOVER, (none : Option String))
        ∈ ({ name := PERMESSAGE_DEFLATE_NAME,
             params := [(PARAM_CLIENT_NO_CONTEXT_TAKEOVER, none)] } :
            WebSocketExtension).params ↔
      ∃ v, (PARAM_CLIENT_NO_CONTEXT_TAKEOVER, v)
        ∈ ({ name := PERMESSAGE_DEFLATE_NAME,
             params := [(PARAM_CLIENT_NO_CONTEXT_TAKEOVER, none)] } :
            WebSocketExtension).params :=
  accept_offer_config_independent.2 DeflateConfig.default
    { name := PERMESSAGE_DEFLATE_NAME, params := [(PARAM_CLIENT_NO_CONTEXT_TAKEOVER, none)] }
    { name := PERMESSAGE_DEFLATE_NAME, params := [(PARAM_CLIENT_NO_CONTEXT_TAKEOVER, none)] }
    rfl

/-! Section: Unfolding helpers for the compress/decompress glue -/

/-- Theorem: `compress` equals running the two loops, dropping the last four bytes, applying
the conditional compressor reset. -/
theorem compress_unfold (C : Codec) (fuel : Nat) (ctx : DeflateContext C)
    (data : List Byte) :
    DeflateContext.compress C fuel ctx data =
      match compressRawRun C fuel data ctx.compressor with
      | none => none
      | some (.error e) => some (.error e)
      | some (.ok (c2, w)) =>
        some (.ok ({ ctx with compressor := if ctx.config.accept_no_context_takeover
          then { c2 with st := C.cReset c2.st } else c2 }, w.take (w.length - 4))) := rfl

/-- Theorem: `decompress` equals feeding `data` plus the trailer exactly when
`is_final`, then apply the conditional decompressor reset. -/
theorem decompress_unfold (C : Codec) (fuel : Nat) (ctx : DeflateContext C)
    (data : List Byte) (is_final : Bool) :
    DeflateContext.decompress C fuel ctx data is_final =
      match decompressFeedLoop C fuel ctx.decompressor ctx.decompressor.total_in
          (data ++ (if is_final then TRAILER else [])) [] with
      | none => none
      | some (.error e) => some (.error e)
      | some (.ok (d1, out)) =>
        some (.ok ({ ctx with decompressor :=
          if is_final && ctx.config.request_no_context_takeover
            then { d1 with st := C.dReset d1.st false } else d1 }, out)) := by
  cases is_final <;> simp [DeflateContext.decompress]

/-! Section: Claim theorems: the compress/decompress glue -/

/-- C7: `decompress` feeds exactly `data ++ TRAILER` to the decompressor when
`is_final` and exactly `data` otherwise, and resets the decompressor state only
in the final-and-configured case — a non-final fragment leaves the fed state
untouched, carrying partial decompressor state to the next fragment. -/
theorem decompress_trailer_iff_final (C : Codec) (fuel : Nat) (ctx : DeflateContext C)
    (data : List Byte) (is_final : Bool) :
    DeflateContext.decompress C fuel ctx data is_final =
      match decompressFeedLoop C fuel ctx.decompressor ctx.decompressor.total_in
          (data ++ (if is_final then TRAILER else [])) [] with
      | none => none
      | some (.error e) => some (.error e)
      | some (.ok (d1, out)) =>
        some (.ok ({ ctx with decompressor :=
          if is_final && ctx.config.request_no_context_takeover
            then { d1 with st := C.dReset d1.st false } else d1 }, out)) :=
  decompress_unfold C fuel ctx data is_final

/-- C8: `compress` resets the compressor iff `accept_no_context_takeover` and
leaves the decompressor untouched; `decompress` resets the decompressor iff
`is_final && request_no_context_takeover` and leaves the compressor untouched. -/
theorem context_reset_gating (C : Codec) (fuel : Nat) (ctx : DeflateContext C)
    (data : List Byte) :
    (∀ (ctx2 : DeflateContext C) (out : List Byte),
      DeflateContext.compress C fuel ctx data = some (.ok (ctx2, out)) →
      ctx2.decompressor = ctx.decompressor ∧ ctx2.config = ctx.config ∧
      ∃ (c2 : Compressor C) (w : List Byte),
        compressRawRun C fuel data ctx.compressor = some (.ok (c2, w)) ∧
        out = w.take (w.length - 4) ∧
        ctx2.compressor = (if ctx.config.accept_no_context_takeover
          then { c2 with st := C.cReset c2.st } else c2))
    ∧ (∀ (is_final : Bool) (ctx2 : DeflateContext C) (out : List Byte),
      DeflateContext.decompress C fuel ctx data is_final = some (.ok (ctx2, out)) →
      ctx2.compressor = ctx.compressor ∧ ctx2.config = ctx.config ∧
      ∃ (d1 : Decompressor C),
        decompressFeedLoop C fuel ctx.decompressor ctx.decompressor.total_in
          (data ++ (if is_final then TRAILER else [])) [] = some (.ok (d1, out)) ∧
        ctx2.decompressor = (if is_final && ctx.config.request_no_context_takeover
          then { d1 with st := C.dReset d1.st false } else d1)) := by
  constructor
  · intro ctx2 out h
    rw [compress_unfold] at h
    cases hr : compressRawRun C fuel data ctx.compressor with
    | none => rw [hr] at h; exact absurd h (by simp)
    | some r =>
      rw [hr] at h
      cases r with
      | error e => exact absurd h (by simp)
      | ok cw =>
        obtain ⟨c2, w⟩ := cw
        simp only [Option.some.injEq, Except.ok.injEq, Prod.mk.injEq] at h
        obtain ⟨hctx, hout⟩ := h
        subst hout
        exact ⟨by rw [← hctx], by rw [← hctx], c2, w, rfl, rfl, by rw [← hctx]⟩
  · intro is_final ctx2 out h
    rw [decompress_unfold] at h
    cases hr : decompressFeedLoop C fuel ctx.decompressor ctx.decompressor.total_in
        (data ++ (if is_final then TRAILER else [])) [] with
    | none => rw [hr] at h; exact absurd h (by simp)
    | some r =>
      rw [hr] at h
      cases r with
      | error e => exact absurd h (by simp)
      | ok dw =>
        obtain ⟨d1, out1⟩ := dw
        simp only [Option.some.injEq, Except.ok.injEq, Prod.mk.injEq] at h
        obtain ⟨hctx, hout⟩ := h
        subst hout
        exact ⟨by rw [← hctx], by rw [← hctx], d1, rfl, by rw [← hctx]⟩

/-- C8 witness: `context_reset_gating` at a concrete toy-codec compression. -/
theorem context_reset_gating_witness :
    ({ config := DeflateConfig.default, compressor := { st := [], total_in := 3 },
        decompressor := { st := (), total_in := 0 } } :
      DeflateContext toyCodec).decompressor
        = (DeflateContext.fromConfig toyCodec DeflateConfig.default).decompressor ∧
    ({ config := DeflateConfig.default, compressor := { st := [], total_in := 3 },
        decompressor := { st := (), total_in := 0 } } :
      DeflateContext toyCodec).config
        = (DeflateContext.fromConfig toyCodec DeflateConfig.default).config ∧
    ∃ (c2 : Compressor toyCodec) (w : List Byte),
      compressRawRun toyCodec 8 [1, 2, 3]
          (DeflateContext.fromConfig toyCodec DeflateConfig.default).compressor
        = some (.ok (c2, w)) ∧
      [1, 1, 1, 2, 1, 3] = w.take (w.length - 4) ∧
      ({ config := DeflateConfig.default, compressor := { st := [], total_in := 3 },
          decompressor := { st := (), total_in := 0 } } :
        DeflateContext toyCodec).compressor
        = (if (DeflateContext.fromConfig toyCodec
              DeflateConfig.default).config.accept_no_context_takeover
            then { c2 with st := toyCodec.cReset c2.st } else c2) :=
  (context_reset_gating toyCodec 8 (DeflateContext.fromConfig toyCodec DeflateConfig.default)
      [1, 2, 3]).1
    { config := DeflateConfig.default, compressor := { st := [], total_in := 3 },
      decompressor := { st := (), total_in := 0 } }
    [1, 1, 1, 2, 1, 3] rfl

/-- C1: compress-then-final-decompress is the identity on payloads, given the
external codec contract at its interface boundary: the feed-and-flush run
completes with a stream ending in the sync-flush trailer `00 00 FF FF`, and
decompressing that whole stream from the paired decompressor state yields the
payload back. -/
theorem compress_decompress_roundtrip (C : Codec) (fuel fuel2 : Nat)
    (ctx : DeflateContext C) (p w : List Byte) (c2 : Compressor C) (d1 : Decompressor C)
    (h1 : compressRawRun C fuel p ctx.compressor = some (.ok (c2, w)))
    (h2 : TRAILER.isSuffixOf w = true)
    (h3 : decompressFeedLoop C fuel2 ctx.decompressor ctx.decompressor.total_in w []
      = some (.ok (d1, p))) :
    ∃ (ctx1 : DeflateContext C) (out : List Byte) (ctx2 : DeflateContext C),
      DeflateContext.compress C fuel ctx p = some (.ok (ctx1, out))
      ∧ DeflateContext.decompress C fuel2 ctx1 out true = some (.ok (ctx2, p)) := by
  obtain ⟨u, hu⟩ := List.isSuffixOf_iff_suffix.mp h2
  have hout : w.take (w.length - 4) = u := by
    rw [← hu]
    have hlen : (u ++ TRAILER).length - 4 = u.length := by simp [TRAILER]
    rw [hlen, List.take_left]
  refine ⟨{ ctx with compressor := if ctx.config.accept_no_context_takeover
      then { c2 with st := C.cReset c2.st } else c2 }, u,
    { ctx with
        compressor := if ctx.config.accept_no_context_takeover
          then { c2 with st := C.cReset c2.st } else c2,
        decompressor := if ctx.config.request_no_context_takeover
          then { d1 with st := C.dReset d1.st false } else d1 }, ?_, ?_⟩
  · rw [compress_unfold, h1]
    show some (Except.ok ({ ctx with compressor := if ctx.config.accept_no_context_takeover
        then { c2 with st := C.cReset c2.st } else c2 }, w.take (w.length - 4))) = _
    rw [hout]
  · rw [decompress_unfold]
    simp [hu, h3]

/-- C1 witness: a full toy-codec round trip on the payload `[1, 2, 3]`. -/
theorem compress_decompress_roundtrip_witness :
    ∃ (ctx1 : DeflateContext toyCodec) (out : List Byte) (ctx2 : DeflateContext toyCodec),
      DeflateContext.compress toyCodec 8
          (DeflateContext.fromConfig toyCodec DeflateConfig.default) [1, 2, 3]
        = some (.ok (ctx1, out))
      ∧ DeflateContext.decompress toyCodec 8 ctx1 out true = some (.ok (ctx2, [1, 2, 3])) :=
  compress_decompress_roundtrip toyCodec 8 8
    (DeflateContext.fromConfig toyCodec DeflateConfig.default)
    [1, 2, 3] [1, 1, 1, 2, 1, 3, 0x00, 0x00, 0xff, 0xff]
    { st := [], total_in := 3 } { st := (), total_in := 10 } rfl rfl rfl

/-- C2 counterexample: with a codec that stores incompressible bytes verbatim
(as zlib stored blocks do), compressing the payload `00 00 FF FF` succeeds and
the returned bytes end with `00 00 FF FF` — the claim that compress output
never ends with the trailer fails. -/
theorem compress_trailer_counterexample :
    DeflateContext.compress storedCodec 8
        (DeflateContext.fromConfig storedCodec DeflateConfig.default) [0x00, 0x00, 0xff, 0xff]
      = some (.ok ({ config := DeflateConfig.default,
                     compressor := { st := [], total_in := 4 },
                     decompressor := { st := (), total_in := 0 } }, [0x00, 0x00, 0xff, 0xff]))
    ∧ TRAILER.isSuffixOf [0x00, 0x00, 0xff, 0xff] = true :=
  ⟨rfl, rfl⟩

/-- C2 (amended): the four trailer bytes appended by the sync flush are always
removed — whenever the flush loop exits with the stream ending in
`00 00 FF FF`, compress returns exactly the stream minus those four bytes (the
result itself can still end with `00 00 FF FF` when the compressed body does). -/
theorem compress_strips_flush_trailer (C : Codec) (fuel : Nat) (ctx : DeflateContext C)
    (data w : List Byte) (c2 : Compressor C)
    (h1 : compressRawRun C fuel data ctx.compressor = some (.ok (c2, w)))
    (h2 : TRAILER.isSuffixOf w = true) :
    ∃ (ctx2 : DeflateContext C) (u : List Byte),
      DeflateContext.compress C fuel ctx data = some (.ok (ctx2, u)) ∧ u ++ TRAILER = w := by
  obtain ⟨u, hu⟩ := List.isSuffixOf_iff_suffix.mp h2
  have hout : w.take (w.length - 4) = u := by
    rw [← hu]
    have hlen : (u ++ TRAILER).length - 4 = u.length := by simp [TRAILER]
    rw [hlen, List.take_left]
  refine ⟨{ ctx with compressor := if ctx.config.accept_no_context_takeover
      then { c2 with st := C.cReset c2.st } else c2 }, u, ?_, hu⟩
  rw [compress_unfold, h1]
  show some (Except.ok ({ ctx with compressor := if ctx.config.accept_no_context_takeover
      then { c2 with st := C.cReset c2.st } else c2 }, w.take (w.length - 4))) = _
  rw [hout]

/-- C2 witness: `compress_strips_flush_trailer` at a concrete toy-codec run. -/
theorem compress_strips_flush_trailer_witness :
    ∃ (ctx2 : DeflateContext toyCodec) (u : List Byte),
      DeflateContext.compress toyCodec 8
          (DeflateContext.fromConfig toyCodec DeflateConfig.default) [1, 2, 3]
        = some (.ok (ctx2, u))
      ∧ u ++ TRAILER = [1, 1, 1, 2, 1, 3, 0x00, 0x00, 0xff, 0xff] :=
  compress_strips_flush_trailer toyCodec 8
    (DeflateContext.fromConfig toyCodec DeflateConfig.default)
    [1, 2, 3] [1, 1, 1, 2, 1, 3, 0x00, 0x00, 0xff, 0xff]
    { st := [], total_in := 3 } rfl rfl

end Tungstenite
